import Mathlib

/-!
Verification of the core transformation functions of the dandi-schema
repository (`create_enum`, `split_name`, `model2graph` in `dandi/models.py`)
against their natural-language specification.

Modelling conventions (shallow embedding):
* Python strings are Lean `String`s (lists of characters); only the ASCII
  behaviour of `str.upper` / `str.lower` / `str.capitalize` is modelled,
  which covers every string the repository feeds to these functions.
* Python dicts are insertion-ordered association lists; assignment updates
  an existing key in place and otherwise appends (`dictSet`).
* Functions that can raise (`ValueError`, `KeyError`, `IndexError`) return
  `Option`, with `none` for the raising executions.
-/

set_option autoImplicit false

namespace DandiSchema

/-! ## Python dict primitives -/

/-- Python dict lookup `d[k]`, `none` when the key is missing (`KeyError`). -/
def dlookup {α : Type} (k : String) : List (String × α) → Option α
  | [] => none
  | (k₁, v) :: rest => if k₁ = k then some v else dlookup k rest

/-- Python dict assignment `d[k] = v`: overwrite in place when the key is
present (keeping its position), otherwise append at the end. -/
def dictSet {α : Type} (k : String) (v : α) : List (String × α) → List (String × α)
  | [] => [(k, v)]
  | (k₁, v₁) :: rest => if k₁ = k then (k, v) :: rest else (k₁, v₁) :: dictSet k v rest

/-! ## Python character and string primitives -/

/-- `c.upper()` for a single character (ASCII range, as CPython behaves on
the ASCII identifiers this repository processes). -/
def pyToUpper (c : Char) : Char :=
  if 97 ≤ c.toNat ∧ c.toNat ≤ 122 then Char.ofNat (c.toNat - 32) else c

/-- `c.lower()` for a single character (ASCII range). -/
def pyToLower (c : Char) : Char :=
  if 65 ≤ c.toNat ∧ c.toNat ≤ 90 then Char.ofNat (c.toNat + 32) else c

/-- The whitespace characters on which Python's `str.split()` (no argument)
splits: the Unicode whitespace code points. -/
def isPySpace (c : Char) : Bool :=
  decide (c.toNat = 32 ∨ c.toNat = 9 ∨ c.toNat = 10 ∨ c.toNat = 11 ∨ c.toNat = 12 ∨
    c.toNat = 13 ∨ c.toNat = 28 ∨ c.toNat = 29 ∨ c.toNat = 30 ∨ c.toNat = 31 ∨
    c.toNat = 133 ∨ c.toNat = 160 ∨ c.toNat = 5760 ∨
    (8192 ≤ c.toNat ∧ c.toNat ≤ 8202) ∨ c.toNat = 8232 ∨ c.toNat = 8233 ∨
    c.toNat = 8239 ∨ c.toNat = 8287 ∨ c.toNat = 12288)

/-- `str.split()` helper: accumulate the current word (reversed) while
scanning; flush it at whitespace and at the end. Empty words are dropped,
exactly as Python's no-argument `split` does. -/
def splitWSAux : List Char → List Char → List (List Char)
  | [], acc => if acc = [] then [] else [acc.reverse]
  | c :: cs, acc =>
    if isPySpace c then
      (if acc = [] then splitWSAux cs [] else acc.reverse :: splitWSAux cs [])
    else splitWSAux cs (c :: acc)

/-- Python `s.split()`: maximal runs of non-whitespace characters. -/
def splitWS (l : List Char) : List (List Char) := splitWSAux l []

/-- Python `s.capitalize()`: first character upper-cased, the rest
lower-cased (ASCII range). -/
def pyCapitalize : List Char → List Char
  | [] => []
  | c :: cs => pyToUpper c :: cs.map pyToLower

/-- Python `" ".join(words)`. -/
def joinSp : List (List Char) → List Char
  | [] => []
  | [w] => w
  | w :: ws => w ++ ' ' :: joinSp ws

/-- Python `s.replace(old, new)` on character lists, with explicit fuel
(one unit per input character, which is always enough): scan left to
right, replacing non-overlapping occurrences of `pat`. -/
def replaceAllF (pat repl : List Char) : Nat → List Char → List Char
  | 0, l => l
  | _ + 1, [] => []
  | fuel + 1, c :: cs =>
    if pat.isPrefixOf (c :: cs) && !pat.isEmpty then
      repl ++ replaceAllF pat repl fuel (cs.drop (pat.length - 1))
    else c :: replaceAllF pat repl fuel cs

/-- Python `s.replace(pat, repl)`. -/
def strReplace (s pat repl : String) : String :=
  ⟨replaceAllF pat.toList repl.toList s.toList.length s.toList⟩

/-- `s.split(sep)[-1]`: the part after the last separator (all of `s` when
the separator does not occur). -/
def lastSeg (sep : Char) (l : List Char) : List Char :=
  (l.reverse.takeWhile (fun c => !(c == sep))).reverse

/-! ## `split_name` (dandi/models.py lines 53 - 63)

```python
def split_name(name):
    space_added = []
    for c in name:
        if c.upper() == c:
            space_added.append(" ")
        space_added.append(c)
    labels = "".join(space_added).split()
    labels[0] = labels[0].capitalize()
    for idx in range(1, len(labels)):
        labels[idx] = labels[idx].lower()
    return " ".join(labels)
```

`labels[0]` raises `IndexError` when `labels` is empty (input without any
non-whitespace character), hence the `Option` result. -/

/-- The `space_added` accumulation: a space is inserted before every
character that is fixed by `upper()`. -/
def spaceAdded : List Char → List Char
  | [] => []
  | c :: cs => (if pyToUpper c = c then [' ', c] else [c]) ++ spaceAdded cs

/-- `split_name` from `dandi/models.py`; `none` models the `IndexError`
raised on input with no non-whitespace character. -/
def split_name (name : String) : Option String :=
  match splitWS (spaceAdded name.toList) with
  | [] => none
  | w :: ws => some ⟨joinSp (pyCapitalize w :: ws.map (List.map pyToLower))⟩

/-! ## Character classes used to state the `split_name` properties -/

/-- ASCII upper-case letter. -/
def isUpperAscii (c : Char) : Prop := 65 ≤ c.toNat ∧ c.toNat ≤ 90

/-- ASCII lower-case letter. -/
def isLowerAscii (c : Char) : Prop := 97 ≤ c.toNat ∧ c.toNat ≤ 122

/-- ASCII letter: the character class of the camel-case identifiers that
`split_name` is applied to in this repository. -/
def isAsciiLetter (c : Char) : Prop := isUpperAscii c ∨ isLowerAscii c

instance (c : Char) : Decidable (isUpperAscii c) := by
  unfold isUpperAscii; infer_instance

instance (c : Char) : Decidable (isLowerAscii c) := by
  unfold isLowerAscii; infer_instance

instance (c : Char) : Decidable (isAsciiLetter c) := by
  unfold isAsciiLetter; infer_instance

/-- A non-empty word of lower-case ASCII letters (the shape of every word
but the first in a `split_name` result on letter input). -/
def LowerWord (w : List Char) : Prop := w ≠ [] ∧ ∀ c ∈ w, isLowerAscii c

/-- An upper-case ASCII letter followed by lower-case ASCII letters (the
shape of the first word of a `split_name` result on letter input). -/
def CapWord (w : List Char) : Prop :=
  ∃ u ls, w = u :: ls ∧ isUpperAscii u ∧ ∀ c ∈ ls, isLowerAscii c

/-! ## `create_enum` (dandi/models.py lines 31 - 50)

```python
def create_enum(data):
    """Convert a JSON-LD enumeration to an Enum"""
    items = {}
    klass = None
    for idx, item in enumerate(data["@graph"]):
        if item["@type"] == "rdfs:Class":
            klass = item["@id"].replace("dandi:", "")
            klass_doc = item["rdfs:comment"]
        else:
            key = item["@id"]
            if ":" in item["@id"]:
                key = item["@id"].split(":")[-1]
            if key in items:
                key = item["@id"].replace(":", "_")
            items[key.replace("-", "_")] = item["@id"]
    if klass is None or len(items) == 0:
        raise ValueError(f"Could not generate a klass or items from {data}")
    newklass = Enum(klass, items)
    newklass.__doc__ = klass_doc
    return newklass
```
-/

/-- A node of the `@graph` list of a vocabulary document: its `@type`, its
`@id`, and its `rdfs:comment` when present (the code reads the comment
only on class nodes, raising `KeyError` when it is absent there). -/
structure VocabNode where
  type : String
  id : String
  comment : Option String
  deriving DecidableEq

/-- A JSON-LD vocabulary document: the `@graph` node list. -/
structure VocabDoc where
  graph : List VocabNode
  deriving DecidableEq

/-- The result of `create_enum`: the enumeration name, its documentation
string, and the `items` dict (member key, member value) in insertion
order. -/
structure PyEnum where
  name : String
  doc : String
  items : List (String × String)
  deriving DecidableEq

/-- The candidate member key of an item node: the part of the `@id` after
the last `:` when the `@id` contains one, else the whole `@id`. -/
def candKey (i : String) : String :=
  if i.toList.contains ':' then ⟨lastSeg ':' i.toList⟩ else i

/-- The loop of `create_enum` over the `@graph` nodes, carrying the
`items` dict and the last seen class (name, comment). `none` models the
`KeyError` on a class node without `rdfs:comment`. -/
def enumFold : List VocabNode → List (String × String) → Option (String × String) →
    Option (List (String × String) × Option (String × String))
  | [], items, kl => some (items, kl)
  | n :: rest, items, kl =>
    if n.type = "rdfs:Class" then
      match n.comment with
      | none => none
      | some d => enumFold rest items (some (strReplace n.id "dandi:" "", d))
    else
      let key₀ := candKey n.id
      let key₁ := if (dlookup key₀ items).isSome then strReplace n.id ":" "_" else key₀
      enumFold rest (dictSet (strReplace key₁ "-" "_") n.id items) kl

/-- `create_enum` from `dandi/models.py`; `none` models the raising
executions (`ValueError` when no class node or no item was found,
`KeyError` when a class node has no comment). -/
def create_enum (data : VocabDoc) : Option PyEnum :=
  match enumFold data.graph [] none with
  | none => none
  | some (_, none) => none
  | some (items, some (klass, klassDoc)) =>
    if items = [] then none else some ⟨klass, klassDoc, items⟩

/-- Is this node the class node of the document? -/
def isClassNode (n : VocabNode) : Bool := n.type == "rdfs:Class"

/-- Number of class nodes of the document. -/
def classCount (d : VocabDoc) : Nat := d.graph.countP isClassNode

/-- The item nodes of the document (every node not typed `rdfs:Class`). -/
def itemNodes (d : VocabDoc) : List VocabNode := d.graph.filter (fun n => !isClassNode n)

/-- Number of item nodes of the document. -/
def itemCount (d : VocabDoc) : Nat := (itemNodes d).length

/-- The member key that `create_enum` stores for an item node when no
collision occurs: the candidate key with `-` normalized to `_`. -/
def normKey (n : VocabNode) : String := strReplace (candKey n.id) "-" "_"

/-- The (name, comment) pair of the last class node of a node list, seeded
with `kl`; mirrors how the `create_enum` loop threads `klass`/`klass_doc`
(meaningful when every class node carries a comment). -/
def lastClass (kl : Option (String × String)) : List VocabNode → Option (String × String)
  | [] => kl
  | n :: rest =>
    lastClass (if n.type = "rdfs:Class" then
      some (strReplace n.id "dandi:" "", n.comment.getD "") else kl) rest

/-! ## `model2graph` (dandi/models.py lines 66 - 97)

```python
def model2graph(model):
    """Convert a model to a JSON-LD graph"""
    klass = {}
    klass["rdfs:comment"] = model.__doc__
    klass["rdfs:label"] = split_name(model.__name__)
    klass["rdf:type"] = "rdfs:Class"
    for key, val in model._ldmeta.items():
        if key == "nskey":
            klass["@id"] = f"{val}:{model.__name__}"
        else:
            klass[key] = val
    graph = [dict(sorted(klass.items()))]
    for key, val in sorted(model.__fields__.items()):
        prefix = val.field_info.extra["nskey"]
        prop = {"@id": f"{prefix}:{key}"}
        prop["schema:domainIncludes"] = klass["@id"]
        if prefix != "schema":
            prop["@type"] = "rdf:Property"
            if val.field_info.title:
                prop["rdfs:label"] = val.field_info.title
            else:
                prop["rdfs:label"] = split_name(key)
            if val.field_info.description:
                prop["rdfs:comment"] = val.field_info.description
            if "rangeIncludes" in val.field_info.extra:
                prop["schema:rangeIncludes"] = val.field_info.extra["rangeIncludes"]
        graph.append(dict(sorted(prop.items())))
    jsonld_doc = {"@context": "../context/base.json", "@graph": graph}
    with open(f"terms/{model.__name__}.yaml", "w") as fp:
        fp.write("# AUTOGENERATED - DO NOT EDIT\n")
        yaml.safe_dump(jsonld_doc, fp, indent=2)
    return jsonld_doc
```

The file write is a side effect performed only after the whole graph has
been assembled; it is outside the model (the returned document is the
persisted document). -/

/-- JSON-LD values occurring in the generated nodes: strings and lists
(`rdfs:subClassOf` values of the ldmeta block are lists). -/
inductive JVal where
  | str : String → JVal
  | arr : List JVal → JVal

/-- Rendering of a value inside the f-string `f"{val}:{model.__name__}"`;
every `nskey` value in the repository is a string. -/
def jshow : JVal → String
  | .str s => s
  | .arr _ => ""

/-- A pydantic field descriptor, reduced to what `model2graph` reads:
`extra["nskey"]` (`none` when absent, which raises `KeyError`), `title`,
`description`, and `extra["rangeIncludes"]`. -/
structure FieldInfo where
  nskey : Option String
  title : Option String
  description : Option String
  rangeIncludes : Option JVal

/-- A record-type description as `model2graph` consumes it: class name,
docstring, the `_ldmeta` dict and the `__fields__` dict. -/
structure PyModel where
  name : String
  doc : String
  ldmeta : List (String × JVal)
  fields : List (String × FieldInfo)

/-- Python string comparison `s < t` (lexicographic on code points). -/
def charListLt : List Char → List Char → Bool
  | [], [] => false
  | [], _ :: _ => true
  | _ :: _, [] => false
  | a :: as, b :: bs => if a < b then true else if b < a then false else charListLt as bs

/-- Python `s < t` on strings. -/
def strLtB (s t : String) : Bool := charListLt s.toList t.toList

/-- Insert a pair into a key-sorted pair list (helper of `sortPairs`). -/
def insertSorted {α : Type} (p : String × α) : List (String × α) → List (String × α)
  | [] => [p]
  | q :: qs => if strLtB p.1 q.1 then p :: q :: qs else q :: insertSorted p qs

/-- Python `sorted(d.items())`: sort the pairs by key (insertion sort; the
keys are pairwise distinct in every use in `model2graph`). -/
def sortPairs {α : Type} : List (String × α) → List (String × α)
  | [] => []
  | p :: ps => insertSorted p (sortPairs ps)

/-- The JSON-LD document returned by `model2graph`: the `@context`
reference and the `@graph` node list (each node a sorted dict). -/
structure JsonLdDoc where
  context : String
  graph : List (List (String × JVal))

/-- Build the property node of one field (`none` for the raising
executions: `KeyError` on a field without `nskey`, `KeyError` when the
ldmeta block declared no `nskey` so that `klass` has no `@id`, and the
`IndexError` of `split_name` on an empty field name). -/
def buildProp (klass : List (String × JVal)) (key : String) (fi : FieldInfo) :
    Option (List (String × JVal)) :=
  match fi.nskey with
  | none => none
  | some pfx =>
    match dlookup "@id" klass with
    | none => none
    | some domain =>
      let prop := dictSet "schema:domainIncludes" domain [("@id", JVal.str (pfx ++ ":" ++ key))]
      if pfx = "schema" then some (sortPairs prop)
      else
        match (match fi.title with
               | some t => if t = "" then split_name key else some t
               | none => split_name key) with
        | none => none
        | some lbl =>
          let prop := dictSet "rdfs:label" (JVal.str lbl)
            (dictSet "@type" (JVal.str "rdf:Property") prop)
          let prop := match fi.description with
            | some dsc => if dsc = "" then prop else dictSet "rdfs:comment" (JVal.str dsc) prop
            | none => prop
          let prop := match fi.rangeIncludes with
            | some r => dictSet "schema:rangeIncludes" r prop
            | none => prop
          some (sortPairs prop)

/-- Build the property nodes of all fields, in the given (sorted) order;
the first raising field aborts the whole call. -/
def buildProps (klass : List (String × JVal)) :
    List (String × FieldInfo) → Option (List (List (String × JVal)))
  | [] => some []
  | (key, fi) :: rest =>
    match buildProp klass key fi with
    | none => none
    | some p =>
      match buildProps klass rest with
      | none => none
      | some ps => some (p :: ps)

/-- `model2graph` from `dandi/models.py`; `none` models every raising
execution, on which nothing is returned and nothing is written. -/
def model2graph (m : PyModel) : Option JsonLdDoc :=
  match split_name m.name with
  | none => none
  | some lbl =>
    let klass₀ : List (String × JVal) :=
      [("rdfs:comment", JVal.str m.doc), ("rdfs:label", JVal.str lbl),
        ("rdf:type", JVal.str "rdfs:Class")]
    let klass := m.ldmeta.foldl
      (fun k p =>
        if p.1 = "nskey" then dictSet "@id" (JVal.str (jshow p.2 ++ ":" ++ m.name)) k
        else dictSet p.1 p.2 k) klass₀
    match buildProps klass (sortPairs m.fields) with
    | none => none
    | some props => some ⟨"../context/base.json", sortPairs klass :: props⟩

/-! ## Concrete documents used by the counterexamples and witnesses -/

/-- A vocabulary document with two class nodes and one item node. -/
def twoClassDoc : VocabDoc :=
  ⟨[⟨"rdfs:Class", "dandi:AccessType", some "first comment"⟩,
    ⟨"rdfs:Class", "dandi:LicenseType", some "second comment"⟩,
    ⟨"rdfs:Datatype", "dandi:Open", none⟩]⟩

/-- A well-formed vocabulary document: one class node, two item nodes. -/
def simpleDoc : VocabDoc :=
  ⟨[⟨"rdfs:Class", "dandi:AccessType", some "An enumeration of access status options"⟩,
    ⟨"rdfs:Datatype", "dandi:Open", none⟩,
    ⟨"rdfs:Datatype", "dandi:Embargoed", none⟩]⟩

/-- The collision document of the spec: one class node, items
`dandi:Open` then `other:Open`. -/
def collisionDoc : VocabDoc :=
  ⟨[⟨"rdfs:Class", "dandi:AccessType", some "An enumeration of access status options"⟩,
    ⟨"rdfs:Datatype", "dandi:Open", none⟩,
    ⟨"rdfs:Datatype", "other:Open", none⟩]⟩

/-- A document whose two item local names differ only by `-` versus `_`
(the hyphenated one second): the hyphen-normalization mismatch document. -/
def hyphenDoc : VocabDoc :=
  ⟨[⟨"rdfs:Class", "dandi:AccessType", some "An enumeration of access status options"⟩,
    ⟨"rdfs:Datatype", "a:x_y", none⟩,
    ⟨"rdfs:Datatype", "b:x-y", none⟩]⟩

/-- A second copy of the hyphen-mismatch shape with its own identifiers,
used by the member-count counterexample. -/
def shrinkDoc : VocabDoc :=
  ⟨[⟨"rdfs:Class", "dandi:RoleType", some "An enumeration of roles"⟩,
    ⟨"rdfs:Datatype", "dandi:ab_cd", none⟩,
    ⟨"rdfs:Datatype", "dandi:ab-cd", none⟩]⟩

/-- A record type with one `schema`-prefixed and one `dandi`-prefixed
field (the latter with a title), as in testable property 6 of the spec. -/
def sampleModel : PyModel :=
  ⟨"Asset", "Metadata used to describe an asset.",
    [("nskey", JVal.str "dandi")],
    [("identifier", ⟨some "schema", none, none, none⟩),
      ("about", ⟨some "dandi", some "About", none, none⟩)]⟩

/-- A record type one of whose fields lacks the `nskey` annotation. -/
def missingNsModel : PyModel :=
  ⟨"Asset", "Metadata used to describe an asset.",
    [("nskey", JVal.str "dandi")],
    [("identifier", ⟨some "schema", none, none, none⟩),
      ("about", ⟨none, some "About", none, none⟩)]⟩

/-! # Theorems -/

/-- C5: `split_name "AssayType"` evaluates to `"Assay type"` and
`split_name "numberOfBytes"` evaluates to `"Number of bytes"`. -/
theorem split_name_literal_cases :
    split_name "AssayType" = some "Assay type" ∧
      split_name "numberOfBytes" = some "Number of bytes" := by
  constructor <;> rfl

/-! ### Character-level lemmas -/

theorem toList_mk (l : List Char) : String.toList ⟨l⟩ = l := rfl

theorem charToNat_ofNat {n : Nat} (h : n < 55296) : (Char.ofNat n).toNat = n := by
  have hv : n.isValidChar := Or.inl h
  simp [Char.ofNat, hv, Char.ofNatAux, Char.toNat, UInt32.toNat, BitVec.toNat_ofNatLt]

theorem char_ne_of_toNat_ne {c d : Char} (h : c.toNat ≠ d.toNat) : c ≠ d :=
  fun he => h (by rw [he])

theorem pyToUpper_of_upper {c : Char} (h : isUpperAscii c) : pyToUpper c = c := by
  unfold pyToUpper
  rw [if_neg]
  rcases h with ⟨h1, h2⟩
  omega

theorem pyToUpper_toNat_of_lower {c : Char} (h : isLowerAscii c) :
    (pyToUpper c).toNat = c.toNat - 32 := by
  rcases h with ⟨h1, h2⟩
  unfold pyToUpper
  rw [if_pos ⟨h1, h2⟩, charToNat_ofNat (by omega)]

theorem isUpper_pyToUpper_of_lower {c : Char} (h : isLowerAscii c) :
    isUpperAscii (pyToUpper c) := by
  have ht := pyToUpper_toNat_of_lower h
  rcases h with ⟨h1, h2⟩
  constructor <;> omega

theorem pyToUpper_ne_of_lower {c : Char} (h : isLowerAscii c) : pyToUpper c ≠ c := by
  apply char_ne_of_toNat_ne
  have ht := pyToUpper_toNat_of_lower h
  rcases h with ⟨h1, h2⟩
  omega

theorem isUpper_pyToUpper_of_letter {c : Char} (h : isAsciiLetter c) :
    isUpperAscii (pyToUpper c) := by
  rcases h with h | h
  · rw [pyToUpper_of_upper h]; exact h
  · exact isUpper_pyToUpper_of_lower h

theorem pyToLower_of_lower {c : Char} (h : isLowerAscii c) : pyToLower c = c := by
  unfold pyToLower
  rw [if_neg]
  rcases h with ⟨h1, h2⟩
  omega

theorem pyToLower_toNat_of_upper {c : Char} (h : isUpperAscii c) :
    (pyToLower c).toNat = c.toNat + 32 := by
  rcases h with ⟨h1, h2⟩
  unfold pyToLower
  rw [if_pos ⟨h1, h2⟩, charToNat_ofNat (by omega)]

theorem isLower_pyToLower_of_letter {c : Char} (h : isAsciiLetter c) :
    isLowerAscii (pyToLower c) := by
  rcases h with h | h
  · have ht := pyToLower_toNat_of_upper h
    rcases h with ⟨h1, h2⟩
    constructor <;> omega
  · rw [pyToLower_of_lower h]; exact h

theorem isPySpace_false_of_letter {c : Char} (h : isAsciiLetter c) :
    isPySpace c = false := by
  have h1 : 65 ≤ c.toNat := by rcases h with ⟨a, b⟩ | ⟨a, b⟩ <;> omega
  have h2 : c.toNat ≤ 122 := by rcases h with ⟨a, b⟩ | ⟨a, b⟩ <;> omega
  unfold isPySpace
  rw [decide_eq_false_iff_not]
  omega

/-! ### `split` and `space_added` lemmas -/

theorem splitWS_eq (l : List Char) : splitWS l = splitWSAux l [] := rfl

theorem splitWSAux_append_space {sp : Char} (hsp : isPySpace sp = true) (xs : List Char) :
    ∀ ys acc, splitWSAux (xs ++ sp :: ys) acc = splitWSAux xs acc ++ splitWSAux ys [] := by
  induction xs with
  | nil =>
    intro ys acc
    by_cases h : acc = [] <;> simp [splitWSAux, hsp, h]
  | cons x xs ih =>
    intro ys acc
    cases hx : isPySpace x with
    | true =>
      by_cases h : acc = [] <;> simp [splitWSAux, hx, h, ih]
    | false =>
      simp [splitWSAux, hx, ih]

theorem splitWSAux_no_space (t : List Char) (hns : ∀ c ∈ t, isPySpace c = false) :
    ∀ acc, splitWSAux t acc = if acc = [] ∧ t = [] then [] else [acc.reverse ++ t] := by
  induction t with
  | nil =>
    intro acc
    by_cases h : acc = [] <;> simp [splitWSAux, h]
  | cons c cs ih =>
    intro acc
    have hc : isPySpace c = false := hns c (by simp)
    have hcs : ∀ x ∈ cs, isPySpace x = false := fun x hx => hns x (by simp [hx])
    rw [splitWSAux, if_neg (by simp [hc]), ih hcs (c :: acc)]
    simp

theorem splitWS_token {t : List Char} (ht : t ≠ [])
    (hns : ∀ c ∈ t, isPySpace c = false) : splitWSAux t [] = [t] := by
  rw [splitWSAux_no_space t hns []]
  simp [ht]

theorem splitWSAux_space_head {sp : Char} (hsp : isPySpace sp = true) (ys : List Char) :
    splitWSAux (sp :: ys) [] = splitWSAux ys [] := by
  simp [splitWSAux, hsp]

theorem splitWSAux_ne_nil {l acc : List Char} (hacc : acc ≠ []) :
    splitWSAux l acc ≠ [] := by
  induction l generalizing acc with
  | nil => simp [splitWSAux, hacc]
  | cons c cs ih =>
    cases hc : isPySpace c with
    | true => simp [splitWSAux, hc, hacc]
    | false =>
      rw [splitWSAux, if_neg (by simp [hc])]
      exact ih (by simp)

theorem splitWSAux_ne_nil_of_mem {l : List Char} {c : Char} (hc : c ∈ l)
    (hcns : isPySpace c = false) : ∀ acc, splitWSAux l acc ≠ [] := by
  induction l with
  | nil => cases hc
  | cons x xs ih =>
    intro acc
    cases hx : isPySpace x with
    | false =>
      rw [splitWSAux, if_neg (by simp [hx])]
      exact splitWSAux_ne_nil (by simp)
    | true =>
      have hmem : c ∈ xs := by
        rcases List.mem_cons.mp hc with rfl | hm
        · rw [hx] at hcns; cases hcns
        · exact hm
      rw [splitWSAux, if_pos (by simp [hx])]
      by_cases h : acc = []
      · simpa [h] using ih hmem []
      · simp [h]

theorem splitWSAux_tokens {P : Char → Prop} :
    ∀ (l acc : List Char), (∀ c ∈ acc, P c) → (∀ c ∈ l, isPySpace c = false → P c) →
    ∀ t ∈ splitWSAux l acc, t ≠ [] ∧ ∀ c ∈ t, P c := by
  intro l
  induction l with
  | nil =>
    intro acc hacc _ t ht
    by_cases h : acc = []
    · simp [splitWSAux, h] at ht
    · simp [splitWSAux, h] at ht
      subst ht
      exact ⟨by simpa using h, fun c hc => hacc c (by simpa using hc)⟩
  | cons x xs ih =>
    intro acc hacc hl t ht
    cases hx : isPySpace x with
    | false =>
      rw [splitWSAux, if_neg (by simp [hx])] at ht
      refine ih (x :: acc) ?_ (fun c hc hns => hl c (by simp [hc]) hns) t ht
      intro c hc
      rcases List.mem_cons.mp hc with rfl | hm
      · exact hl c (by simp) hx
      · exact hacc c hm
    | true =>
      rw [splitWSAux, if_pos (by simp [hx])] at ht
      have hl' : ∀ c ∈ xs, isPySpace c = false → P c :=
        fun c hc hns => hl c (by simp [hc]) hns
      by_cases h : acc = []
      · rw [if_pos h] at ht
        exact ih [] (by simp) hl' t ht
      · rw [if_neg h] at ht
        rcases List.mem_cons.mp ht with rfl | ht'
        · exact ⟨by simpa using h, fun c hc => hacc c (by simpa using hc)⟩
        · exact ih [] (by simp) hl' t ht'

theorem spaceAdded_append (xs ys : List Char) :
    spaceAdded (xs ++ ys) = spaceAdded xs ++ spaceAdded ys := by
  induction xs with
  | nil => simp [spaceAdded]
  | cons c cs ih => simp [spaceAdded, ih]

theorem spaceAdded_nofix {w : List Char} (h : ∀ c ∈ w, pyToUpper c ≠ c) :
    spaceAdded w = w := by
  induction w with
  | nil => rfl
  | cons c cs ih =>
    rw [spaceAdded, if_neg (h c (by simp)), ih (fun x hx => h x (by simp [hx]))]
    simp

theorem spaceAdded_lower {w : List Char} (h : ∀ c ∈ w, isLowerAscii c) :
    spaceAdded w = w :=
  spaceAdded_nofix (fun c hc => pyToUpper_ne_of_lower (h c hc))

theorem mem_spaceAdded_self {l : List Char} {c : Char} (h : c ∈ l) :
    c ∈ spaceAdded l := by
  induction l with
  | nil => cases h
  | cons x xs ih =>
    rw [spaceAdded]
    rcases List.mem_cons.mp h with rfl | hm
    · by_cases hx : pyToUpper c = c <;> simp [hx]
    · by_cases hx : pyToUpper x = x <;> simp [hx, ih hm]

theorem mem_spaceAdded_inv {l : List Char} {c : Char} (h : c ∈ spaceAdded l) :
    c = ' ' ∨ c ∈ l := by
  induction l with
  | nil => simp [spaceAdded] at h
  | cons x xs ih =>
    rw [spaceAdded] at h
    by_cases hx : pyToUpper x = x
    · simp [hx] at h
      rcases h with h | h | h
      · exact Or.inl h
      · exact Or.inr (by simp [h])
      · rcases ih h with h' | h'
        · exact Or.inl h'
        · exact Or.inr (by simp [h'])
    · simp [hx] at h
      rcases h with h | h
      · exact Or.inr (by simp [h])
      · rcases ih h with h' | h'
        · exact Or.inl h'
        · exact Or.inr (by simp [h'])

/-! ### C7: empty and single-character input -/

/-- C7 counterexample: on the empty string, `split_name` does not return a
value at all (the Python function raises `IndexError` at `labels[0]`), so
the claim that it completes and returns the empty string is false. -/
theorem split_name_empty_fails : split_name "" = none := rfl

/-- C7 (amended): `split_name` on a single-character string over an ASCII
non-whitespace character completes and returns that character
capitalized; on the empty string (and on whitespace-only strings) the
function raises instead of returning a value. -/
theorem split_name_single_char (c : Char) (hascii : c.toNat ≤ 127)
    (hsp : isPySpace c = false) : split_name ⟨[c]⟩ = some ⟨[pyToUpper c]⟩ := by
  have htok : splitWSAux [c] [] = [[c]] := by
    refine splitWS_token (by simp) ?_
    intro x hx
    simp at hx
    subst hx
    exact hsp
  unfold split_name
  rw [toList_mk, splitWS_eq]
  by_cases h : pyToUpper c = c
  · rw [show spaceAdded [c] = ' ' :: [c] from by simp [spaceAdded, h],
      splitWSAux_space_head (by decide), htok]
    simp [joinSp, pyCapitalize]
  · rw [show spaceAdded [c] = [c] from by simp [spaceAdded, h], htok]
    simp [joinSp, pyCapitalize]

/-- Witness for the amended C7 theorem at the concrete character `a`. -/
theorem split_name_single_char_witness :
    ('a'.toNat ≤ 127 ∧ isPySpace 'a' = false) ∧ split_name "a" = some "A" :=
  ⟨⟨by decide, by decide⟩, split_name_single_char 'a' (by decide) (by decide)⟩

/-! ### C6: idempotence of `split_name` on camel-case identifiers -/

theorem joinSp_cons_cons (w v : List Char) (ws : List (List Char)) :
    joinSp (w :: v :: ws) = w ++ ' ' :: joinSp (v :: ws) := rfl

theorem map_pyToLower_id {w : List Char} (h : ∀ c ∈ w, isLowerAscii c) :
    w.map pyToLower = w := by
  induction w with
  | nil => rfl
  | cons c cs ih =>
    simp [pyToLower_of_lower (h c (by simp)), ih (fun x hx => h x (by simp [hx]))]

theorem map_words_id {ws : List (List Char)} (h : ∀ w ∈ ws, LowerWord w) :
    ws.map (List.map pyToLower) = ws := by
  induction ws with
  | nil => rfl
  | cons w ws ih =>
    simp [map_pyToLower_id (h w (by simp)).2, ih (fun x hx => h x (by simp [hx]))]

theorem spaceAdded_space_cons (l : List Char) :
    spaceAdded (' ' :: l) = ' ' :: ' ' :: spaceAdded l := by
  rw [spaceAdded, if_pos (by decide : pyToUpper ' ' = ' ')]
  rfl

theorem lowerWord_no_space {w : List Char} (h : LowerWord w) :
    ∀ c ∈ w, isPySpace c = false :=
  fun c hc => isPySpace_false_of_letter (Or.inr (h.2 c hc))

theorem splitWS_joinSp_lower :
    ∀ ws, ws ≠ [] → (∀ w ∈ ws, LowerWord w) →
      splitWSAux (spaceAdded (joinSp ws)) [] = ws := by
  intro ws
  induction ws with
  | nil => intro h; cases h rfl
  | cons w ws ih =>
    intro _ hall
    have hw : LowerWord w := hall w (by simp)
    cases ws with
    | nil =>
      rw [show joinSp [w] = w from rfl, spaceAdded_lower hw.2]
      exact splitWS_token hw.1 (lowerWord_no_space hw)
    | cons v ws' =>
      rw [joinSp_cons_cons, spaceAdded_append, spaceAdded_lower hw.2,
        spaceAdded_space_cons, splitWSAux_append_space (by decide) w,
        splitWSAux_space_head (by decide),
        splitWS_token hw.1 (lowerWord_no_space hw),
        ih (by simp) (fun x hx => hall x (by simp [hx]))]
      rfl

theorem capWord_no_space {w : List Char} (h : CapWord w) :
    ∀ c ∈ w, isPySpace c = false := by
  obtain ⟨u, ls, rfl, hu, hls⟩ := h
  intro c hc
  rcases List.mem_cons.mp hc with rfl | hm
  · exact isPySpace_false_of_letter (Or.inl hu)
  · exact isPySpace_false_of_letter (Or.inr (hls c hm))

theorem spaceAdded_capWord {w : List Char} (h : CapWord w) :
    spaceAdded w = ' ' :: w := by
  obtain ⟨u, ls, rfl, hu, hls⟩ := h
  rw [show (u :: ls : List Char) = [u] ++ ls from rfl, spaceAdded_append,
    spaceAdded_lower hls, spaceAdded, if_pos (pyToUpper_of_upper hu)]
  rfl

theorem splitWS_joinSp_formatted {first : List Char} {rest : List (List Char)}
    (hf : CapWord first) (hr : ∀ w ∈ rest, LowerWord w) :
    splitWSAux (spaceAdded (joinSp (first :: rest))) [] = first :: rest := by
  have hfne : first ≠ [] := by
    obtain ⟨u, ls, rfl, _, _⟩ := hf
    simp
  cases rest with
  | nil =>
    rw [show joinSp [first] = first from rfl, spaceAdded_capWord hf,
      splitWSAux_space_head (by decide), splitWS_token hfne (capWord_no_space hf)]
  | cons v rest' =>
    rw [joinSp_cons_cons, spaceAdded_append, spaceAdded_capWord hf,
      spaceAdded_space_cons]
    rw [show (' ' :: first) ++ ' ' :: ' ' :: spaceAdded (joinSp (v :: rest')) =
      ' ' :: (first ++ ' ' :: (' ' :: spaceAdded (joinSp (v :: rest')))) from by simp]
    rw [splitWSAux_space_head (by decide),
      splitWSAux_append_space (by decide) first,
      splitWS_token hfne (capWord_no_space hf),
      splitWSAux_space_head (by decide),
      splitWS_joinSp_lower (v :: rest') (by simp) hr]
    rfl

/-- `split_name` fixes every string already in output shape: a capitalized
first word followed by lower-case words, joined by single spaces. -/
theorem split_name_fix {first : List Char} {rest : List (List Char)}
    (hf : CapWord first) (hr : ∀ w ∈ rest, LowerWord w) :
    split_name ⟨joinSp (first :: rest)⟩ = some ⟨joinSp (first :: rest)⟩ := by
  unfold split_name
  rw [toList_mk, splitWS_eq, splitWS_joinSp_formatted hf hr]
  show some (String.mk (joinSp (pyCapitalize first :: rest.map (List.map pyToLower)))) =
    some (String.mk (joinSp (first :: rest)))
  obtain ⟨u, ls, rfl, hu, hls⟩ := hf
  rw [show pyCapitalize (u :: ls) = pyToUpper u :: ls.map pyToLower from rfl,
    pyToUpper_of_upper hu, map_pyToLower_id hls, map_words_id hr]

/-- C6: `split_name` is idempotent on the camel-case identifiers of its
domain: for every non-empty string of ASCII letters, applying
`split_name` to its own output returns that output unchanged. -/
theorem split_name_idempotent (s : String) (hne : s.toList ≠ [])
    (hletters : ∀ c ∈ s.toList, isAsciiLetter c) :
    ∃ y, split_name s = some y ∧ split_name y = some y := by
  obtain ⟨c0, cs0, hs⟩ : ∃ c0 cs0, s.toList = c0 :: cs0 := by
    cases h : s.toList with
    | nil => exact absurd h hne
    | cons a l => exact ⟨a, l, rfl⟩
  have hc0 : isAsciiLetter c0 := hletters c0 (by rw [hs]; simp)
  have hz : splitWSAux (spaceAdded s.toList) [] ≠ [] := by
    refine splitWSAux_ne_nil_of_mem (mem_spaceAdded_self ?_)
      (isPySpace_false_of_letter hc0) []
    rw [hs]; simp
  obtain ⟨w, ws, hsplit⟩ : ∃ w ws, splitWSAux (spaceAdded s.toList) [] = w :: ws := by
    cases h : splitWSAux (spaceAdded s.toList) [] with
    | nil => exact absurd h hz
    | cons a l => exact ⟨a, l, rfl⟩
  have htoks : ∀ t ∈ w :: ws, t ≠ [] ∧ ∀ c ∈ t, isAsciiLetter c := by
    intro t ht
    rw [← hsplit] at ht
    refine splitWSAux_tokens _ [] (by simp) ?_ t ht
    intro c hc hcns
    rcases mem_spaceAdded_inv hc with rfl | hm
    · rw [show isPySpace ' ' = true from by decide] at hcns
      cases hcns
    · exact hletters c hm
  have hw := htoks w (by simp)
  obtain ⟨u0, ls0, hw0⟩ : ∃ a l, w = a :: l := by
    cases h : w with
    | nil => exact absurd h hw.1
    | cons a l => exact ⟨a, l, rfl⟩
  have h1 : split_name s = some ⟨joinSp (pyCapitalize w :: ws.map (List.map pyToLower))⟩ := by
    unfold split_name
    rw [splitWS_eq, hsplit]
  have hcapw : CapWord (pyCapitalize w) := by
    subst hw0
    refine ⟨pyToUpper u0, ls0.map pyToLower, rfl,
      isUpper_pyToUpper_of_letter (hw.2 u0 (by simp)), ?_⟩
    intro c hc
    obtain ⟨d, hd, rfl⟩ := List.mem_map.mp hc
    exact isLower_pyToLower_of_letter (hw.2 d (by simp [hd]))
  have hlws : ∀ v ∈ ws.map (List.map pyToLower), LowerWord v := by
    intro v hv
    obtain ⟨t, ht, rfl⟩ := List.mem_map.mp hv
    have h := htoks t (by simp [ht])
    refine ⟨by simpa using h.1, ?_⟩
    intro c hc
    obtain ⟨d, hd, rfl⟩ := List.mem_map.mp hc
    exact isLower_pyToLower_of_letter (h.2 d hd)
  exact ⟨_, h1, split_name_fix hcapw hlws⟩

/-- Witness for the C6 theorem at the concrete identifier `AssayType`. -/
theorem split_name_idempotent_witness :
    ("AssayType".toList ≠ [] ∧ ∀ c ∈ "AssayType".toList, isAsciiLetter c) ∧
      ∃ y, split_name "AssayType" = some y ∧ split_name y = some y :=
  ⟨⟨by decide, by decide⟩,
    split_name_idempotent "AssayType" (by decide) (by decide)⟩

/-! ### Dict and replace lemmas -/

theorem dictSet_ne_nil {α : Type} (k : String) (v : α) (l : List (String × α)) :
    dictSet k v l ≠ [] := by
  cases l with
  | nil => simp [dictSet]
  | cons p rest =>
    obtain ⟨k₁, v₁⟩ := p
    rw [dictSet]
    split <;> simp

theorem mem_dictSet {α : Type} {k : String} {v : α} {l : List (String × α)}
    {p : String × α} (h : p ∈ dictSet k v l) : p ∈ l ∨ p = (k, v) := by
  induction l with
  | nil => simp [dictSet] at h; exact Or.inr h
  | cons q rest ih =>
    obtain ⟨k₁, v₁⟩ := q
    rw [dictSet] at h
    by_cases hk : k₁ = k
    · rw [if_pos hk] at h
      rcases List.mem_cons.mp h with rfl | h'
      · exact Or.inr rfl
      · exact Or.inl (by simp [h'])
    · rw [if_neg hk] at h
      rcases List.mem_cons.mp h with rfl | h'
      · exact Or.inl (by simp)
      · rcases ih h' with h'' | h''
        · exact Or.inl (by simp [h''])
        · exact Or.inr h''

theorem dlookup_none_iff {α : Type} {k : String} {l : List (String × α)} :
    dlookup k l = none ↔ k ∉ l.map Prod.fst := by
  induction l with
  | nil => simp [dlookup]
  | cons q rest ih =>
    obtain ⟨k₁, v₁⟩ := q
    by_cases hk : k₁ = k
    · subst hk
      simp [dlookup]
    · simp [dlookup, hk, ih, Ne.symm hk]

theorem dictSet_append {α : Type} {k : String} {l : List (String × α)} (v : α)
    (h : k ∉ l.map Prod.fst) : dictSet k v l = l ++ [(k, v)] := by
  induction l with
  | nil => rfl
  | cons q rest ih =>
    obtain ⟨k₁, v₁⟩ := q
    have h1 : ¬k₁ = k := by
      intro hh
      exact h (by simp [hh])
    have h2 : k ∉ rest.map Prod.fst := by
      intro hh
      exact h (by simp [hh])
    rw [dictSet, if_neg h1, ih h2]
    rfl

theorem replaceAllF_single {p r : Char} :
    ∀ (l : List Char) (fuel : Nat), l.length ≤ fuel →
      replaceAllF [p] [r] fuel l = l.map (fun c => if c = p then r else c) := by
  intro l
  induction l with
  | nil => intro fuel _; cases fuel <;> rfl
  | cons c cs ih =>
    intro fuel hf
    cases fuel with
    | zero => simp at hf
    | succ f =>
      have hpre : [p].isPrefixOf (c :: cs) = (p == c) := by
        simp [List.isPrefixOf]
      rw [replaceAllF, hpre]
      by_cases hc : c = p
      · rw [if_pos (by simp [hc])]
        simp only [List.length_cons, Nat.succ_le_succ_iff] at hf
        simp [hc, ih f (by simpa using hf)]
      · rw [if_neg (by simp [Ne.symm hc])]
        simp only [List.length_cons, Nat.succ_le_succ_iff] at hf
        simp [hc, ih f (by simpa using hf)]

theorem strReplace_hyphen (s : String) :
    strReplace s "-" "_" = ⟨s.toList.map (fun c => if c = '-' then '_' else c)⟩ := by
  unfold strReplace
  congr 1
  exact replaceAllF_single s.toList s.toList.length (Nat.le_refl _)

theorem strReplace_hyphen_idem (s : String) :
    strReplace (strReplace s "-" "_") "-" "_" = strReplace s "-" "_" := by
  rw [strReplace_hyphen s, strReplace_hyphen, toList_mk]
  congr 1
  rw [List.map_map]
  congr 1
  funext a
  by_cases h : a = '-' <;> simp [h, Function.comp]

/-! ### `create_enum`: the loop invariants -/

/-- When every class node carries a comment, the `create_enum` loop never
raises, the final `klass` is `none` exactly when it started as `none` and
no class node occurred, and the final `items` dict is empty exactly when
it started empty and every node was a class node. -/
theorem enumFold_spec :
    ∀ (g : List VocabNode) (items : List (String × String)) (kl : Option (String × String)),
    (∀ n ∈ g, n.type = "rdfs:Class" → n.comment.isSome) →
    ∃ items' kl', enumFold g items kl = some (items', kl') ∧
      (kl' = none ↔ (kl = none ∧ ∀ n ∈ g, n.type ≠ "rdfs:Class")) ∧
      (items' = [] ↔ (items = [] ∧ ∀ n ∈ g, n.type = "rdfs:Class")) := by
  intro g
  induction g with
  | nil =>
    intro items kl _
    exact ⟨items, kl, rfl, by simp, by simp⟩
  | cons n rest ih =>
    intro items kl hcom
    by_cases htype : n.type = "rdfs:Class"
    · obtain ⟨c, hc⟩ := Option.isSome_iff_exists.mp (hcom n (by simp) htype)
      obtain ⟨items', kl', heq, hkl, hitems⟩ :=
        ih items (some (strReplace n.id "dandi:" "", c))
          (fun m hm => hcom m (by simp [hm]))
      refine ⟨items', kl', ?_, ?_, ?_⟩
      · rw [enumFold, if_pos htype, hc]
        exact heq
      · rw [hkl]
        constructor
        · intro h
          cases h.1
        · intro h
          exact absurd htype (h.2 n (by simp))
      · rw [hitems]
        constructor
        · intro h
          exact ⟨h.1, fun m hm => by
            rcases List.mem_cons.mp hm with rfl | hm'
            · exact htype
            · exact h.2 m hm'⟩
        · intro h
          exact ⟨h.1, fun m hm => h.2 m (by simp [hm])⟩
    · obtain ⟨items', kl', heq, hkl, hitems⟩ :=
        ih (dictSet (strReplace (if (dlookup (candKey n.id) items).isSome then
          strReplace n.id ":" "_" else candKey n.id) "-" "_") n.id items) kl
          (fun m hm => hcom m (by simp [hm]))
      refine ⟨items', kl', ?_, ?_, ?_⟩
      · rw [enumFold, if_neg htype]
        exact heq
      · rw [hkl]
        constructor
        · intro h
          exact ⟨h.1, fun m hm => by
            rcases List.mem_cons.mp hm with rfl | hm'
            · exact htype
            · exact h.2 m hm'⟩
        · intro h
          exact ⟨h.1, fun m hm => h.2 m (by simp [hm])⟩
      · rw [hitems]
        constructor
        · intro h
          exact absurd h.1 (dictSet_ne_nil _ _ _)
        · intro h
          exact absurd (h.2 n (by simp)) htype

/-- C1 counterexample: a vocabulary document with two class nodes (and one
item node) is accepted without an error, refuting the claimed
"if and only if": the code keeps the last class node. -/
theorem create_enum_two_class_nodes_accepted :
    classCount twoClassDoc = 2 ∧
      create_enum twoClassDoc =
        some ⟨"LicenseType", "second comment", [("Open", "dandi:Open")]⟩ :=
  ⟨rfl, rfl⟩

/-- C1 (amended): for vocabulary documents whose class nodes all carry an
`rdfs:comment`, `create_enum` raises an error if and only if the document
has zero class nodes or zero item nodes; on such documents no (partial)
enumeration is returned, and multiple class nodes do not raise (the last
class node wins). -/
theorem create_enum_error_iff (d : VocabDoc)
    (hcom : ∀ n ∈ d.graph, n.type = "rdfs:Class" → n.comment.isSome) :
    create_enum d = none ↔
      ((∀ n ∈ d.graph, n.type ≠ "rdfs:Class") ∨ (∀ n ∈ d.graph, n.type = "rdfs:Class")) := by
  obtain ⟨items', kl', heq, hkl, hitems⟩ := enumFold_spec d.graph [] none hcom
  unfold create_enum
  rw [heq]
  cases kl' with
  | none =>
    show (none : Option PyEnum) = none ↔ _
    constructor
    · intro _
      exact Or.inl (hkl.mp rfl).2
    · intro _
      rfl
  | some pr =>
    obtain ⟨a, b⟩ := pr
    show (if items' = [] then none else some (PyEnum.mk a b items')) = none ↔ _
    by_cases hi : items' = []
    · rw [if_pos hi]
      constructor
      · intro _
        exact Or.inr (hitems.mp hi).2
      · intro _
        rfl
    · rw [if_neg hi]
      constructor
      · intro h
        cases h
      · intro h
        rcases h with h | h
        · cases hkl.mpr ⟨rfl, h⟩
        · exact absurd (hitems.mpr ⟨rfl, h⟩) hi

/-- Witness for the amended C1 theorem: the two-class document satisfies
the comment hypothesis, and the equivalence evaluates at it. -/
theorem create_enum_error_iff_witness :
    (∀ n ∈ twoClassDoc.graph, n.type = "rdfs:Class" → n.comment.isSome) ∧
      (create_enum twoClassDoc = none ↔
        ((∀ n ∈ twoClassDoc.graph, n.type ≠ "rdfs:Class") ∨
          (∀ n ∈ twoClassDoc.graph, n.type = "rdfs:Class"))) :=
  ⟨by decide, create_enum_error_iff twoClassDoc (by decide)⟩

/-- C4: on the collision document with items `dandi:Open` then
`other:Open`, the first occurrence keeps the short key `Open` (valued
`dandi:Open`) and the second gets `other_Open` (valued `other:Open`). -/
theorem create_enum_collision_case :
    create_enum collisionDoc =
      some ⟨"AccessType", "An enumeration of access status options",
        [("Open", "dandi:Open"), ("other_Open", "other:Open")]⟩ := rfl

/-- C10: on the hyphen-mismatch document (items `a:x_y` then `b:x-y`), no
collision is detected (the check uses the un-normalized candidate key
`x-y` against the normalized stored key `x_y`), the second item's value
silently replaces the first's under the shared key `x_y`, and the
enumeration ends up with 1 member for 2 item nodes. -/
theorem create_enum_hyphen_mismatch :
    create_enum hyphenDoc =
      some ⟨"AccessType", "An enumeration of access status options",
        [("x_y", "b:x-y")]⟩ ∧ itemCount hyphenDoc = 2 :=
  ⟨rfl, rfl⟩

/-! ### `create_enum`: member count, documentation and values -/

/-- When no collision triggers (the normalized candidate keys of the item
nodes are pairwise distinct, and the `items` keys so far are normalized
and distinct from them), the loop appends exactly one member per item
node, and threads the last class node. -/
theorem enumFold_items :
    ∀ (g : List VocabNode) (items : List (String × String)) (kl : Option (String × String)),
    (∀ n ∈ g, n.type = "rdfs:Class" → n.comment.isSome) →
    (∀ k ∈ items.map Prod.fst, strReplace k "-" "_" = k) →
    (items.map Prod.fst ++ (g.filter (fun n => !isClassNode n)).map normKey).Nodup →
    enumFold g items kl =
      some (items ++ (g.filter (fun n => !isClassNode n)).map (fun n => (normKey n, n.id)),
        lastClass kl g) := by
  intro g
  induction g with
  | nil =>
    intro items kl _ _ _
    simp [enumFold, lastClass]
  | cons n rest ih =>
    intro items kl hcom hnrm hnd
    by_cases htype : n.type = "rdfs:Class"
    · have hcls : isClassNode n = true := by simp [isClassNode, htype]
      obtain ⟨c, hc⟩ := Option.isSome_iff_exists.mp (hcom n (by simp) htype)
      have hfc : List.filter (fun m => !isClassNode m) (n :: rest) =
          List.filter (fun m => !isClassNode m) rest := by
        simp [List.filter_cons, hcls]
      rw [hfc] at hnd ⊢
      rw [enumFold, if_pos htype, hc]
      show enumFold rest items (some (strReplace n.id "dandi:" "", c)) = _
      rw [ih items _ (fun m hm => hcom m (by simp [hm])) hnrm hnd]
      rw [lastClass, if_pos htype, hc]
      rfl
    · have hcls : isClassNode n = false := by
        simp [isClassNode]
        exact htype
      have hfc : List.filter (fun m => !isClassNode m) (n :: rest) =
          n :: List.filter (fun m => !isClassNode m) rest := by
        simp [List.filter_cons, hcls]
      rw [hfc, List.map_cons] at hnd ⊢
      have hx : normKey n ∉ items.map Prod.fst := fun hmem =>
        (List.nodup_append.mp hnd).2.2 hmem (by simp)
      have hcand : dlookup (candKey n.id) items = none := by
        apply dlookup_none_iff.mpr
        intro hmem
        apply hx
        have hfix := hnrm _ hmem
        rw [show normKey n = strReplace (candKey n.id) "-" "_" from rfl, hfix]
        exact hmem
      rw [enumFold, if_neg htype]
      simp only [hcand, Option.isSome_none, Bool.false_eq_true, if_false]
      rw [show strReplace (candKey n.id) "-" "_" = normKey n from rfl]
      rw [dictSet_append n.id hx]
      have hnrm' : ∀ k ∈ (items ++ [(normKey n, n.id)]).map Prod.fst,
          strReplace k "-" "_" = k := by
        intro k hk
        rw [List.map_append] at hk
        rcases List.mem_append.mp hk with h | h
        · exact hnrm k h
        · have hkn : k = normKey n := by simpa using h
          rw [hkn]
          exact strReplace_hyphen_idem (candKey n.id)
      have hnd' : ((items ++ [(normKey n, n.id)]).map Prod.fst ++
          (rest.filter (fun m => !isClassNode m)).map normKey).Nodup := by
        rw [List.map_append, List.append_assoc]
        simpa using hnd
      rw [ih (items ++ [(normKey n, n.id)]) kl (fun m hm => hcom m (by simp [hm])) hnrm' hnd']
      rw [lastClass, if_neg htype]
      simp [List.append_assoc]

theorem lastClass_no_class :
    ∀ (g : List VocabNode) (kl : Option (String × String)),
    (∀ n ∈ g, n.type ≠ "rdfs:Class") → lastClass kl g = kl := by
  intro g
  induction g with
  | nil => intro kl _; rfl
  | cons n rest ih =>
    intro kl h
    rw [lastClass, if_neg (h n (by simp))]
    exact ih kl (fun m hm => h m (by simp [hm]))

theorem lastClass_unique :
    ∀ (g : List VocabNode) (kl : Option (String × String)) (n : VocabNode),
    g.countP isClassNode = 1 → n ∈ g → n.type = "rdfs:Class" →
    lastClass kl g = some (strReplace n.id "dandi:" "", n.comment.getD "") := by
  intro g
  induction g with
  | nil =>
    intro kl n _ hmem
    cases hmem
  | cons m rest ih =>
    intro kl n hcount htypemem htype
    by_cases hm : m.type = "rdfs:Class"
    · have hrest : rest.countP isClassNode = 0 := by
        rw [List.countP_cons] at hcount
        simp only [isClassNode, hm, beq_self_eq_true, if_pos] at hcount
        omega
      have hnone : ∀ x ∈ rest, x.type ≠ "rdfs:Class" := by
        intro x hx hxc
        have h0 := List.countP_eq_zero.mp hrest x hx
        exact h0 (by simp [isClassNode, hxc])
      have hn : n = m := by
        rcases List.mem_cons.mp htypemem with rfl | hmem'
        · rfl
        · exact absurd htype (hnone n hmem')
      subst hn
      rw [lastClass, if_pos hm, lastClass_no_class rest _ hnone]
    · have hmem' : n ∈ rest := by
        rcases List.mem_cons.mp htypemem with rfl | h'
        · exact absurd htype hm
        · exact h'
      have hcount' : rest.countP isClassNode = 1 := by
        rw [List.countP_cons] at hcount
        simpa [isClassNode, hm] using hcount
      rw [lastClass, if_neg hm]
      exact ih kl n hcount' hmem' htype

/-- C2 counterexample: `shrinkDoc` has exactly one class node and two item
nodes, yet the returned enumeration has one member, not two: the second
item's value silently replaces the first's. -/
theorem create_enum_member_count_cex :
    classCount shrinkDoc = 1 ∧ itemCount shrinkDoc = 2 ∧
      (create_enum shrinkDoc).map (fun e => e.items.length) = some 1 :=
  ⟨rfl, rfl, rfl⟩

/-- C2 (amended): for every vocabulary document with exactly one class
node (carrying a comment) and at least one item node, whose items'
hyphen-normalized local names are pairwise distinct (so no collision
handling triggers) and whose item `@id`s are pairwise distinct,
`create_enum` returns an enumeration whose member count equals the
item-node count and whose documentation equals the class node's
`rdfs:comment`. -/
theorem create_enum_count_and_doc (d : VocabDoc)
    (hcls : classCount d = 1) (hit : 1 ≤ itemCount d)
    (hcom : ∀ n ∈ d.graph, n.type = "rdfs:Class" → n.comment.isSome)
    (hkeys : ((itemNodes d).map normKey).Nodup)
    (_hids : ((itemNodes d).map VocabNode.id).Nodup) :
    ∃ e, create_enum d = some e ∧ e.items.length = itemCount d ∧
      ∀ n ∈ d.graph, n.type = "rdfs:Class" → n.comment = some e.doc := by
  obtain ⟨n₀, hn₀mem, hn₀⟩ : ∃ n ∈ d.graph, isClassNode n = true := by
    apply List.countP_pos_iff.mp
    rw [show d.graph.countP isClassNode = classCount d from rfl, hcls]
    exact Nat.one_pos
  have hn₀type : n₀.type = "rdfs:Class" := by simpa [isClassNode] using hn₀
  obtain ⟨c₀, hc₀⟩ := Option.isSome_iff_exists.mp (hcom n₀ hn₀mem hn₀type)
  have hfold := enumFold_items d.graph [] none hcom (by simp)
    (by simpa [itemNodes] using hkeys)
  have hlast := lastClass_unique d.graph none n₀ hcls hn₀mem hn₀type
  rw [hc₀] at hlast
  simp only [Option.getD_some] at hlast
  rw [hlast] at hfold
  simp only [List.nil_append] at hfold
  have hlen : ((d.graph.filter (fun n => !isClassNode n)).map
      (fun n => (normKey n, n.id))).length = itemCount d := by
    simp [itemCount, itemNodes]
  have hne : ((d.graph.filter (fun n => !isClassNode n)).map
      (fun n => (normKey n, n.id))) ≠ [] := by
    intro h
    rw [h] at hlen
    simp at hlen
    omega
  refine ⟨⟨strReplace n₀.id "dandi:" "", c₀,
    (d.graph.filter (fun n => !isClassNode n)).map (fun n => (normKey n, n.id))⟩,
    ?_, hlen, ?_⟩
  · unfold create_enum
    rw [hfold]
    show (if _ = ([] : List (String × String)) then none else _) = _
    rw [if_neg hne]
  · intro n hn hntype
    have h1 := lastClass_unique d.graph none n hcls hn hntype
    rw [hlast] at h1
    have h2 : n.comment.getD "" = c₀ :=
      (((Prod.mk.injEq _ _ _ _).mp (Option.some.inj h1)).2).symm
    obtain ⟨c, hc⟩ := Option.isSome_iff_exists.mp (hcom n hn hntype)
    rw [hc] at h2 ⊢
    simp only [Option.getD_some] at h2
    rw [h2]

/-- Witness for the amended C2 theorem at the two-item document. -/
theorem create_enum_count_and_doc_witness :
    (classCount simpleDoc = 1 ∧ 1 ≤ itemCount simpleDoc ∧
      (∀ n ∈ simpleDoc.graph, n.type = "rdfs:Class" → n.comment.isSome) ∧
      ((itemNodes simpleDoc).map normKey).Nodup ∧
      ((itemNodes simpleDoc).map VocabNode.id).Nodup) ∧
      ∃ e, create_enum simpleDoc = some e ∧ e.items.length = itemCount simpleDoc ∧
        ∀ n ∈ simpleDoc.graph, n.type = "rdfs:Class" → n.comment = some e.doc :=
  ⟨⟨by decide, by decide, by decide, by decide, by decide⟩,
    create_enum_count_and_doc simpleDoc (by decide) (by decide) (by decide)
      (by decide) (by decide)⟩

/-- Every member value in the final `items` dict is the `@id` of some item
node already processed. -/
theorem enumFold_values :
    ∀ (g : List VocabNode) (items : List (String × String)) kl items' kl',
    enumFold g items kl = some (items', kl') →
    ∀ p ∈ items', p ∈ items ∨ ∃ n ∈ g, n.type ≠ "rdfs:Class" ∧ n.id = p.2 := by
  intro g
  induction g with
  | nil =>
    intro items kl items' kl' heq p hp
    rw [enumFold] at heq
    injection heq with h
    rw [show items' = items from ((Prod.mk.injEq _ _ _ _).mp h).1.symm] at hp
    exact Or.inl hp
  | cons n rest ih =>
    intro items kl items' kl' heq p hp
    by_cases htype : n.type = "rdfs:Class"
    · rw [enumFold, if_pos htype] at heq
      cases hc : n.comment with
      | none =>
        rw [hc] at heq
        cases heq
      | some c =>
        rw [hc] at heq
        rcases ih _ _ _ _ heq p hp with h | ⟨m, hm, hmt, hmid⟩
        · exact Or.inl h
        · exact Or.inr ⟨m, by simp [hm], hmt, hmid⟩
    · rw [enumFold, if_neg htype] at heq
      rcases ih _ _ _ _ heq p hp with h | ⟨m, hm, hmt, hmid⟩
      · rcases mem_dictSet h with h' | h'
        · exact Or.inl h'
        · exact Or.inr ⟨n, by simp, htype, by rw [h']⟩
      · exact Or.inr ⟨m, by simp [hm], hmt, hmid⟩

/-- C3: for every vocabulary document accepted by `create_enum`, each
member of the resulting enumeration has as its value the `@id` string of
an item node of the document, verbatim: only keys are transformed. -/
theorem create_enum_values_verbatim (d : VocabDoc) (e : PyEnum)
    (he : create_enum d = some e) :
    ∀ p ∈ e.items, ∃ n ∈ d.graph, n.type ≠ "rdfs:Class" ∧ n.id = p.2 := by
  intro p hp
  unfold create_enum at he
  cases heq : enumFold d.graph [] none with
  | none =>
    rw [heq] at he
    cases he
  | some st =>
    obtain ⟨items', kl'⟩ := st
    rw [heq] at he
    cases kl' with
    | none => exact Option.noConfusion he
    | some pr =>
      obtain ⟨name, doc⟩ := pr
      have he' : (if items' = [] then none
          else some (PyEnum.mk name doc items')) = some e := he
      by_cases hi : items' = []
      · rw [if_pos hi] at he'
        cases he'
      · rw [if_neg hi] at he'
        injection he' with he''
        subst he''
        have hp' : p ∈ items' := hp
        rcases enumFold_values d.graph [] none items' _ heq p hp' with h | h
        · cases h
        · exact h

/-- Witness for the C3 theorem: applied to the two-item document and its
first member. -/
theorem create_enum_values_verbatim_witness :
    ∃ n ∈ simpleDoc.graph, n.type ≠ "rdfs:Class" ∧ n.id = "dandi:Open" :=
  create_enum_values_verbatim simpleDoc
    ⟨"AccessType", "An enumeration of access status options",
      [("Open", "dandi:Open"), ("Embargoed", "dandi:Embargoed")]⟩
    (by rfl) ("Open", "dandi:Open") (by decide)

/-! ### `model2graph` -/

theorem mem_insertSorted {α : Type} {p q : String × α} {l : List (String × α)} :
    p ∈ insertSorted q l ↔ p = q ∨ p ∈ l := by
  induction l with
  | nil => simp [insertSorted]
  | cons r rest ih =>
    rw [insertSorted]
    by_cases h : strLtB q.1 r.1
    · simp [h]
    · simp [h, ih]
      tauto

theorem mem_sortPairs {α : Type} {p : String × α} {l : List (String × α)} :
    p ∈ sortPairs l ↔ p ∈ l := by
  induction l with
  | nil => simp [sortPairs]
  | cons q rest ih => simp [sortPairs, mem_insertSorted, ih]

/-- A field whose `buildProp` raises makes the whole property loop
raise. -/
theorem buildProps_none {klass : List (String × JVal)} (fs : List (String × FieldInfo))
    (h : ∃ p ∈ fs, buildProp klass p.1 p.2 = none) : buildProps klass fs = none := by
  induction fs with
  | nil =>
    obtain ⟨p, hp, _⟩ := h
    cases hp
  | cons q rest ih =>
    obtain ⟨p, hp, hnone⟩ := h
    obtain ⟨key, fi⟩ := q
    rw [buildProps]
    rcases List.mem_cons.mp hp with heq | hp'
    · have h0 : buildProp klass key fi = none := by
        rw [heq] at hnone
        exact hnone
      rw [h0]
    · cases hq : buildProp klass key fi with
      | none => rfl
      | some pr =>
        rw [ih ⟨p, hp', hnone⟩]

/-- C9: if any field descriptor of the record type lacks the `nskey`
namespace-prefix annotation, `model2graph` produces nothing at all: the
`KeyError` (the spec's `MissingNamespaceError`) aborts the call before
the document is assembled or written, so no partial document exists. -/
theorem model2graph_missing_nskey (m : PyModel)
    (h : ∃ p ∈ m.fields, p.2.nskey = none) : model2graph m = none := by
  obtain ⟨p, hp, hnone⟩ := h
  have hb : ∀ klass, buildProp klass p.1 p.2 = none := by
    intro klass
    rw [buildProp, hnone]
  have hp' : p ∈ sortPairs m.fields := mem_sortPairs.mpr hp
  unfold model2graph
  cases hs : split_name m.name with
  | none => rfl
  | some lbl =>
    simp only []
    rw [buildProps_none (sortPairs m.fields) ⟨p, hp', hb _⟩]

/-- Witness for the C9 theorem at a concrete two-field record type whose
second field lacks `nskey`. -/
theorem model2graph_missing_nskey_witness :
    (∃ p ∈ missingNsModel.fields, p.2.nskey = none) ∧
      model2graph missingNsModel = none :=
  ⟨by decide, model2graph_missing_nskey missingNsModel (by decide)⟩

/-- C8: on a record type with one `schema`-prefixed field and one
`dandi`-prefixed field that has a (non-empty) title, `model2graph`
produces exactly two property nodes after the class node; the
`schema`-prefixed node has exactly the two keys `@id` and
`schema:domainIncludes`, while the `dandi`-prefixed node additionally
carries `@type` (valued `rdf:Property`) and `rdfs:label` (valued the
field's title). The nodes appear in the sorted order of the two field
names. -/
theorem model2graph_two_fields (N D t fs fd L : String)
    (hL : split_name N = some L) (_hne : fs ≠ fd) (ht : t ≠ "") :
    model2graph ⟨N, D, [("nskey", JVal.str "dandi")],
      [(fs, ⟨some "schema", none, none, none⟩), (fd, ⟨some "dandi", some t, none, none⟩)]⟩ =
    some ⟨"../context/base.json",
      [("@id", JVal.str ("dandi:" ++ N)), ("rdf:type", JVal.str "rdfs:Class"),
        ("rdfs:comment", JVal.str D), ("rdfs:label", JVal.str L)] ::
      (if strLtB fs fd then
        [[("@id", JVal.str ("schema:" ++ fs)),
          ("schema:domainIncludes", JVal.str ("dandi:" ++ N))],
         [("@id", JVal.str ("dandi:" ++ fd)), ("@type", JVal.str "rdf:Property"),
          ("rdfs:label", JVal.str t),
          ("schema:domainIncludes", JVal.str ("dandi:" ++ N))]]
       else
        [[("@id", JVal.str ("dandi:" ++ fd)), ("@type", JVal.str "rdf:Property"),
          ("rdfs:label", JVal.str t),
          ("schema:domainIncludes", JVal.str ("dandi:" ++ N))],
         [("@id", JVal.str ("schema:" ++ fs)),
          ("schema:domainIncludes", JVal.str ("dandi:" ++ N))]])⟩ := by
  have hfields : sortPairs [(fs, FieldInfo.mk (some "schema") none none none),
      (fd, FieldInfo.mk (some "dandi") (some t) none none)] =
    if strLtB fs fd then
      [(fs, FieldInfo.mk (some "schema") none none none),
        (fd, FieldInfo.mk (some "dandi") (some t) none none)]
    else
      [(fd, FieldInfo.mk (some "dandi") (some t) none none),
        (fs, FieldInfo.mk (some "schema") none none none)] := by
    simp only [sortPairs, insertSorted]
  simp only [model2graph, hL, hfields]
  cases hlt : strLtB fs fd with
  | true =>
    simp only [if_pos, hlt, buildProps, buildProp, dictSet, dlookup, sortPairs,
      insertSorted, jshow, if_neg ht]
    rfl
  | false =>
    simp only [if_neg, hlt, buildProps, buildProp, dictSet, dlookup, sortPairs,
      insertSorted, jshow, if_neg ht]
    rfl

/-- Witness for the C8 theorem at the concrete record type
`sampleModel`. -/
theorem model2graph_two_fields_witness :
    (split_name "Asset" = some "Asset" ∧ "identifier" ≠ "about" ∧ "About" ≠ "") ∧
      model2graph sampleModel = some ⟨"../context/base.json",
        [[("@id", JVal.str "dandi:Asset"), ("rdf:type", JVal.str "rdfs:Class"),
          ("rdfs:comment", JVal.str "Metadata used to describe an asset."),
          ("rdfs:label", JVal.str "Asset")],
         [("@id", JVal.str "dandi:about"), ("@type", JVal.str "rdf:Property"),
          ("rdfs:label", JVal.str "About"),
          ("schema:domainIncludes", JVal.str "dandi:Asset")],
         [("@id", JVal.str "schema:identifier"),
          ("schema:domainIncludes", JVal.str "dandi:Asset")]]⟩ :=
  ⟨⟨by decide, by decide, by decide⟩,
    model2graph_two_fields "Asset" "Metadata used to describe an asset." "About"
      "identifier" "about" "Asset" (by decide) (by decide) (by decide)⟩

end DandiSchema
